import Mathlib

/-!
# Verification of the AX.25 frame codec (`STACet/ax25.py`)

A shallow embedding of the bit-level framing engine of `ax25.py`:
HDLC-style bit stuffing/unstuffing, the incremental frame-check-sequence
(FCS) engine, the callsign codec, AX.25 address/header assembly, frame
serialization (`unparse`) and frame parsing (`parse`).

Modelling conventions:
* a Python `bitarray` is a `List Bool`; `frombytes`/`tobytes` with
  `endian="little"` become `bytesToBits`/`bitsToBytes` (least-significant
  bit of each byte first); the default (big-endian) `bitarray` used by
  `fcs_validate`'s buffer becomes `bitsToBytesBE`;
* Python `bytes`/`str` values are `List Nat` of code points;
* Python machine integers are `Nat` (they stay non-negative throughout);
  `~x % 2**16` for `x ≥ 0` is `2^16 - 1 - x % 2^16`;
* fallible Python code (uncaught exceptions) returns `Except String`.
-/

set_option maxRecDepth 10000

/-- One byte as its eight bits, least-significant bit first
(`bitarray(endian="little").frombytes`). -/
def byteToBits (b : Nat) : List Bool :=
  (List.range 8).map (fun i => b.testBit i)

/-- A byte string as a bit sequence, little-bit-endian within each byte. -/
def bytesToBits (l : List Nat) : List Bool :=
  (l.map byteToBits).flatten

/-- Up to eight little-endian bits as a byte value (missing high bits are
zero, matching `tobytes` padding). -/
def bitsToByte (bits : List Bool) : Nat :=
  bits.foldr (fun b acc => acc * 2 + (if b then 1 else 0)) 0

/-- `bitarray(endian="little").tobytes()`: chunk into bytes of eight bits,
padding the final partial byte with zero bits. -/
def bitsToBytes : List Bool → List Nat
  | [] => []
  | b0 :: b1 :: b2 :: b3 :: b4 :: b5 :: b6 :: b7 :: rest =>
    bitsToByte [b0, b1, b2, b3, b4, b5, b6, b7] :: bitsToBytes rest
  | l => [bitsToByte l]

/-- Up to eight big-endian bits as a byte value: the first bit is the most
significant; a partial chunk is padded with trailing zero bits. -/
def bitsToByteBE (bits : List Bool) : Nat :=
  (bits ++ List.replicate (8 - bits.length) false).foldl
    (fun acc b => acc * 2 + (if b then 1 else 0)) 0

/-- `bitarray().tobytes()` for a default (big-endian) bitarray, as used for
the 16-bit trailer buffer inside `fcs_validate`. -/
def bitsToBytesBE : List Bool → List Nat
  | [] => []
  | b0 :: b1 :: b2 :: b3 :: b4 :: b5 :: b6 :: b7 :: rest =>
    bitsToByteBE [b0, b1, b2, b3, b4, b5, b6, b7] :: bitsToBytesBE rest
  | l => [bitsToByteBE l]

/-!
## Bit stuffing (`bit_stuff`) and unstuffing (`bit_unstuff`)

`bit_stuff` keeps a count of consecutive `True` bits (reset on `False`),
yields each input bit, and after a count of five yields an extra `False`
and resets the count.  `bit_unstuff` keeps the same count plus a `skip`
flag: when the count reaches five the next bit is consumed without being
emitted.
-/

/-- Loop of `bit_stuff`, with the running count of consecutive one-bits as
an explicit argument. -/
def bit_stuffAux : Nat → List Bool → List Bool
  | _, [] => []
  | count, true :: rest =>
    if count + 1 = 5 then true :: false :: bit_stuffAux 0 rest
    else true :: bit_stuffAux (count + 1) rest
  | _, false :: rest => false :: bit_stuffAux 0 rest

/-- `bit_stuff(data)`: add a `0` after every run of five `1`s. -/
def bit_stuff (data : List Bool) : List Bool :=
  bit_stuffAux 0 data

/-- Loop of `bit_unstuff`, with the running count and the `skip` flag as
explicit arguments.  When `skip` is set the current bit is dropped and
`skip` is cleared; the count was already reset to zero when `skip` was set. -/
def bit_unstuffAux : Nat → Bool → List Bool → List Bool
  | _, _, [] => []
  | count, true, _ :: rest => bit_unstuffAux count false rest
  | count, false, true :: rest =>
    if count + 1 = 5 then true :: bit_unstuffAux 0 true rest
    else true :: bit_unstuffAux (count + 1) false rest
  | _, false, false :: rest => false :: bit_unstuffAux 0 false rest

/-- `bit_unstuff(data)`: remove the `0` following any run of five `1`s. -/
def bit_unstuff (data : List Bool) : List Bool :=
  bit_unstuffAux 0 false data

/-!
## FCS engine (`class FCS`)
-/

/-- `FCS.__init__`: the CRC state starts at `0xffff`. -/
def FCS.init : Nat := 0xffff

/-- `FCS.update_bit(bit)`: `check = (self.fcs & 0x1 == 1)`;
`self.fcs >>= 1`; if `check != bit` then `self.fcs ^= 0x8408`. -/
def FCS.update_bit (fcs : Nat) (bit : Bool) : Nat :=
  let check : Bool := fcs &&& 0x1 == 1
  let shifted := fcs >>> 1
  if check != bit then shifted ^^^ 0x8408 else shifted

/-- `FCS.digest()`: `struct.pack("<H", ~self.fcs % 2**16)`.  For a
non-negative Python int, `~fcs % 2**16 = 2^16 - 1 - fcs % 2^16`; `pack`
emits the low byte first. -/
def FCS.digest (fcs : Nat) : List Nat :=
  let v := 2 ^ 16 - 1 - fcs % 2 ^ 16
  [v &&& 0xff, (v >>> 8) &&& 0xff]

/-- The function `fcs(bits)`: yield every input bit while folding it into
the CRC state, then yield the digest's bits (little-bit-endian). -/
def fcs (bits : List Bool) : List Bool :=
  bits ++ bytesToBits (FCS.digest (bits.foldl FCS.update_bit FCS.init))

/-- Loop of `fcs_validate`: `buffer` is a default-endian `bitarray`; each
input bit is appended, and once the buffer exceeds 16 bits the oldest bit
is popped and handed to the byte-oriented `FCS.update`.  `FCS.update`
iterates its argument with `ord(b) for b in bytes`; a popped bit is a
`bool`, which is not iterable, so that call raises `TypeError`.  After the
loop the buffered 16 bits are compared with the digest of the (never
updated) CRC state. -/
def fcs_validateAux : List Bool → List Bool → Nat → List Bool →
    Except String (List Bool)
  | [], buffer, state, out =>
    if bitsToBytesBE buffer = FCS.digest state then Except.ok out
    else Except.error "FCS checksum invalid."
  | bit :: rest, buffer, state, out =>
    let buffer := buffer ++ [bit]
    if 16 < buffer.length then
      Except.error "TypeError"
    else fcs_validateAux rest buffer state out

/-- `fcs_validate(bits)`: strip and check the 16-bit FCS trailer, yielding
the data bits.  (The yielded bits are collected in order in `out`; the
defect path above means `out` never grows.) -/
def fcs_validate (bits : List Bool) : Except String (List Bool) :=
  fcs_validateAux bits [] FCS.init []

/-!
## Callsign codec (`AX25.callsign_encode` / `AX25.callsign_decode`)
-/

/-- `bytes.upper()` on one byte: ASCII lowercase maps to uppercase. -/
def upperByte (c : Nat) : Nat :=
  if 97 ≤ c ∧ c ≤ 122 then c - 32 else c

/-- `bytes.find(sep)` for a one-byte separator: index of the first
occurrence, `-1` when absent. -/
def pyfind (sep : Nat) : List Nat → Int
  | [] => -1
  | c :: rest =>
    if c = sep then 0
    else if pyfind sep rest < 0 then -1 else pyfind sep rest + 1

/-- `bytes.split(sep)` for a one-byte separator: split on every
occurrence. -/
def splitOn (sep : Nat) : List Nat → List (List Nat)
  | [] => [[]]
  | c :: rest =>
    if c = sep then [] :: splitOn sep rest
    else
      match splitOn sep rest with
      | [] => [[c]]
      | h :: t => (c :: h) :: t

/-- The split phase of `callsign_encode`: upper-case, then
`if callsign.find(b"-") > 0: callsign, ssid = callsign.split(b"-")` —
unpacking raises `ValueError` unless the split has exactly two parts —
`else: ssid = b"0"`. -/
def callsign_split (callsign0 : List Nat) :
    Except String (List Nat × List Nat) :=
  if 0 < pyfind 45 (callsign0.map upperByte) then
    match splitOn 45 (callsign0.map upperByte) with
    | [a, b] => Except.ok (a, b)
    | _ => Except.error "ValueError"
  else Except.ok (callsign0.map upperByte, [48])

/-- `b"".join([bytes([char << 1]) for char in callsign])`: shift every
byte left by one; `bytes([v])` raises `ValueError` unless `v ≤ 255`. -/
def shiftBytes : List Nat → Except String (List Nat)
  | [] => Except.ok []
  | c :: rest =>
    if c <<< 1 ≤ 255 then (shiftBytes rest).map ((c <<< 1) :: ·)
    else Except.error "ValueError"

/-- `AX25.callsign_encode(callsign)`: split off the SSID, assert the SSID
is one character and the callsign at most six, space-pad the callsign to
six characters, append the SSID and shift every byte left by one. -/
def callsign_encode (callsign0 : List Nat) : Except String (List Nat) :=
  match callsign_split callsign0 with
  | Except.error e => Except.error e
  | Except.ok (callsign, ssid) =>
    if ssid.length = 1 then
      if callsign.length ≤ 6 then
        shiftBytes (callsign ++ List.replicate (6 - callsign.length) 32 ++ ssid)
      else Except.error "AssertionError"
    else Except.error "AssertionError"

/-- `AX25.callsign_decode(callbits)` after `callbits.tobytes()`: shift
every byte right by one and read it as a character. -/
def callsign_decode (callbytes : List Nat) : List Nat :=
  callbytes.map (· >>> 1)

/-!
## Address and header assembly
-/

/-- `bytearray[-1] |= 0x01` on the address bytes: set the low bit of the
last byte.  (Python would raise `IndexError` on an empty bytearray; the
argument is never empty here since the destination contributes 7 bytes.) -/
def orLast : List Nat → List Nat
  | [] => []
  | [b] => [b ||| 1]
  | b :: rest => b :: orLast rest

/-- The digipeater list comprehension
`[AX25.callsign_encode(digi) for digi in self.digipeaters]`: encode each
in order, propagating the first failure. -/
def encodeList : List (List Nat) → Except String (List (List Nat))
  | [] => Except.ok []
  | g :: rest =>
    match callsign_encode g with
    | Except.error e => Except.error e
    | Except.ok e =>
      match encodeList rest with
      | Except.error e2 => Except.error e2
      | Except.ok es => Except.ok (e :: es)

/-- `AX25.encoded_addresses()`: concatenate the encoded destination,
source and digipeater callsigns and set the low bit of the final byte
(end-of-address marker). -/
def encoded_addresses (dest src : List Nat) (digis : List (List Nat)) :
    Except String (List Nat) :=
  match callsign_encode dest with
  | Except.error e => Except.error e
  | Except.ok d =>
    match callsign_encode src with
    | Except.error e => Except.error e
    | Except.ok s =>
      match encodeList digis with
      | Except.error e => Except.error e
      | Except.ok ds => Except.ok (orLast (d ++ s ++ ds.flatten))

/-- An `AX25` object's fields (`UI.__init__` sets `control_field = b"\x03"`
and `protocol_id = b"\xf0"`). -/
structure AX25 where
  destination : List Nat
  source : List Nat
  digipeaters : List (List Nat)
  info : List Nat
  control_field : List Nat
  protocol_id : List Nat

/-- `UI.__init__`: an AX.25 frame with control byte `0x03` and protocol id
`0xF0`. -/
def UI (destination source : List Nat) (digipeaters : List (List Nat))
    (info : List Nat) : AX25 :=
  ⟨destination, source, digipeaters, info, [0x03], [0xf0]⟩

/-- `AX25.header()`: encoded addresses, control field, protocol id. -/
def AX25.header (f : AX25) : Except String (List Nat) :=
  match encoded_addresses f.destination f.source f.digipeaters with
  | Except.error e => Except.error e
  | Except.ok addr => Except.ok (addr ++ f.control_field ++ f.protocol_id)

/-- The method `AX25.fcs()`: fold `update_bit` over the little-endian bits
of `header + info` and return the digest bytes. -/
def AX25.fcs (f : AX25) : Except String (List Nat) :=
  match f.header with
  | Except.error e => Except.error e
  | Except.ok h =>
    Except.ok (FCS.digest ((bytesToBits (h ++ f.info)).foldl FCS.update_bit FCS.init))

/-- The flag byte `0x7e` as little-endian bits. -/
def flagBits : List Bool := bytesToBits [0x7e]

/-- `AX25.unparse()`: flag bits, the bit-stuffed little-endian bits of
`header + info + fcs`, flag bits. -/
def AX25.unparse (f : AX25) : Except String (List Bool) :=
  match f.header with
  | Except.error e => Except.error e
  | Except.ok h =>
    match f.fcs with
    | Except.error e => Except.error e
    | Except.ok d =>
      Except.ok (flagBits ++ bit_stuff (bytesToBits (h ++ f.info ++ d)) ++ flagBits)

/-!
## Frame parsing (`AX25.parse`)
-/

/-- A value stored in one of the four fields `parse` assigns
(`destination`, `source`, `info`, `digis`): a `str`, a `bytes`, or the
empty tuple `()`. -/
inductive PyField where
  | str : List Nat → PyField
  | bytes : List Nat → PyField
  | tuple0 : PyField
deriving DecidableEq

/-- The four fields `AX25.parse` assigns on `self`. -/
structure ParseResult where
  destination : PyField
  source : PyField
  info : PyField
  digis : PyField
deriving DecidableEq

/-- The character codes of the sentinel string `"no decode"`. -/
def noDecodeStr : List Nat := [110, 111, 32, 100, 101, 99, 111, 100, 101]

/-- The sentinel state `parse` leaves on any caught exception: all four
fields set to the string `"no decode"`. -/
def noDecodeResult : ParseResult :=
  ⟨.str noDecodeStr, .str noDecodeStr, .str noDecodeStr, .str noDecodeStr⟩

/-- `bits[i : i + pat.length] == pat`? -/
def matchAt (pat l : List Bool) (i : Nat) : Bool :=
  decide ((l.drop i).take pat.length = pat)

/-- `bitarray.search(pat)`: the start indices of every (possibly
overlapping) occurrence of `pat`, in order. -/
def searchAll (pat l : List Bool) : List Nat :=
  (List.range (l.length + 1 - pat.length)).filter (matchAt pat l)

/-- The number of occurrences of the flag pattern `0x7E` in a bit
sequence. -/
def flagCount (bits : List Bool) : Nat :=
  (searchAll flagBits bits).length

/-- The body of `AX25.parse`'s `try` block.  Notes on the Python-3
semantics it embeds:
* `flag_loc[0]` / `flag_loc[1]` raise `IndexError` when fewer than two
  flag occurrences exist;
* the marker scan `if bits_bytes[n:n+2] == "\x03\xF0"` compares a `bytes`
  slice with a `str` literal, which is always `False` in Python 3, so the
  loop never breaks; when `range(14, len(bits_bytes) - 1)` is empty
  (fewer than 16 bytes) the loop variable `n` is left unbound and the
  following `if n == ...` raises `NameError`; otherwise `n` ends at
  `len(bits_bytes) - 2`;
* `digilen = (n - 14) * 8 / 7` is a Python-3 float; it equals `0` exactly
  when `(n - 14) * 8 = 0`;
* when `digilen != 0`, the branch assigns the misspelled name
  `digipeters`, and the subsequent `print(..., digipeaters)` raises
  `NameError` because `digipeaters` was never bound. -/
def parseBody (bits : List Bool) : Except String ParseResult :=
  let locs := searchAll flagBits bits
  match locs.get? 0, locs.get? 1 with
  | none, _ => Except.error "IndexError"
  | some _, none => Except.error "IndexError"
  | some loc0, some loc1 =>
    let bits_noflag := (bits.drop (loc0 + 8)).take (loc1 - (loc0 + 8))
    let bits_unstuff := bit_unstuff bits_noflag
    let bits_bytes := bitsToBytes bits_unstuff
    let h_dest := bits_unstuff.take 56
    let h_src := (bits_unstuff.drop 56).take 56
    if bits_bytes.length < 16 then Except.error "NameError"
    else
      let n := bits_bytes.length - 2
      if n = bits_bytes.length - 1 then Except.ok noDecodeResult
      else
        if (n - 14) * 8 = 0 then
          let h_len := 112 + (n - 14) * 8 + 16
          let info := (bits_unstuff.take (bits_unstuff.length - 16)).drop h_len
          Except.ok
            ⟨.str (callsign_decode (bitsToBytes h_dest)),
             .str (callsign_decode (bitsToBytes h_src)),
             .bytes (bitsToBytes info),
             .tuple0⟩
        else Except.error "NameError"

/-- `AX25.parse(bits)`: run the `try` body; the bare `except` turns every
raised exception into the all-`"no decode"` sentinel state. -/
def AX25.parse (bits : List Bool) : ParseResult :=
  match parseBody bits with
  | Except.ok r => r
  | Except.error _ => noDecodeResult

/-!
## Derived predicates and concrete test data used by the verification
-/

/-- Checks that a bit sequence never contains a run of six consecutive
one-bits and that every run of exactly five one-bits is followed by an
emitted `0` (also at the end of the stream): `c` is the length of the
current run of ones. -/
def stuffed_ok : Nat → List Bool → Bool
  | c, [] => decide (c < 5)
  | _, false :: rest => stuffed_ok 0 rest
  | c, true :: rest => decide (c + 1 < 6) && stuffed_ok (c + 1) rest

/-- The FCS step as worded by the specification: `check = (state & 1) != 0`;
`state >>= 1`; if `check != bit` then `state ^= 0x8408`. -/
def spec_update_bit (state : Nat) (bit : Bool) : Nat :=
  if (decide (state &&& 1 ≠ 0)) != bit then (state >>> 1) ^^^ 0x8408
  else state >>> 1

/-- The FCS digest as worded by the specification: the one's complement of
the state modulo `2^16`, as two bytes least-significant byte first. -/
def spec_digest (state : Nat) : List Nat :=
  let v := (2 ^ 16 - 1) - state % 2 ^ 16
  [v % 2 ^ 8, (v / 2 ^ 8) % 2 ^ 8]

/-- Running the FCS bit engine over the little-endian bits of a byte
string, used to stage concrete digest computations. -/
def fcsFoldBytes (s : Nat) (l : List Nat) : Nat :=
  (bytesToBits l).foldl FCS.update_bit s

/-- The byte string `b"APRS"`. -/
def aprsB : List Nat := [65, 80, 82, 83]

/-- The byte string `b"N0CALL"`. -/
def n0callB : List Nat := [78, 48, 67, 65, 76, 76]

/-- The byte string `b"WIDE1-1"`. -/
def wide1B : List Nat := [87, 73, 68, 69, 49, 45, 49]

/-- The byte string `b"WIDE2-1"`. -/
def wide2B : List Nat := [87, 73, 68, 69, 50, 45, 49]

/-- The concrete UI frame `UI(b"APRS", b"N0CALL", (b"WIDE1-1", b"WIDE2-1"),
b"!")` of the round-trip property. -/
def frameC1 : AX25 := UI aprsB n0callB [wide1B, wide2B] [33]

/-- Convenience constructor for long literal bit sequences. -/
def bit01 (l : List Nat) : List Bool := l.map (· == 1)

/-- The computed header bytes of `frameC1`: encoded addresses (with the
end-of-address bit set on the final digipeater SSID byte), control `0x03`,
protocol id `0xF0`. -/
def hdrC1 : List Nat :=
  [130, 160, 164, 166, 64, 64, 96, 156, 96, 134, 130, 152, 152, 96,
   174, 146, 136, 138, 98, 64, 98, 174, 146, 136, 138, 100, 64, 99, 3, 240]

/-- The bit-stuffed little-endian bits of `hdrC1 ++ info ++ fcs` for
`frameC1` (one stuffing bit was inserted inside the FCS trailer). -/
def stuffedC1 : List Bool := bit01
  [0, 1, 0, 0, 0, 0, 0, 1, 0, 0, 0, 0, 0, 1, 0, 1, 0, 0, 1, 0, 0, 1, 0, 1,
   0, 1, 1, 0, 0, 1, 0, 1, 0, 0, 0, 0, 0, 0, 1, 0, 0, 0, 0, 0, 0, 0, 1, 0,
   0, 0, 0, 0, 0, 1, 1, 0, 0, 0, 1, 1, 1, 0, 0, 1, 0, 0, 0, 0, 0, 1, 1, 0,
   0, 1, 1, 0, 0, 0, 0, 1, 0, 1, 0, 0, 0, 0, 0, 1, 0, 0, 0, 1, 1, 0, 0, 1,
   0, 0, 0, 1, 1, 0, 0, 1, 0, 0, 0, 0, 0, 1, 1, 0, 0, 1, 1, 1, 0, 1, 0, 1,
   0, 1, 0, 0, 1, 0, 0, 1, 0, 0, 0, 1, 0, 0, 0, 1, 0, 1, 0, 1, 0, 0, 0, 1,
   0, 1, 0, 0, 0, 1, 1, 0, 0, 0, 0, 0, 0, 0, 1, 0, 0, 1, 0, 0, 0, 1, 1, 0,
   0, 1, 1, 1, 0, 1, 0, 1, 0, 1, 0, 0, 1, 0, 0, 1, 0, 0, 0, 1, 0, 0, 0, 1,
   0, 1, 0, 1, 0, 0, 0, 1, 0, 0, 1, 0, 0, 1, 1, 0, 0, 0, 0, 0, 0, 0, 1, 0,
   1, 1, 0, 0, 0, 1, 1, 0, 1, 1, 0, 0, 0, 0, 0, 0, 0, 0, 0, 0, 1, 1, 1, 1,
   1, 0, 0, 0, 0, 0, 1, 0, 0, 0, 1, 0, 0, 1, 0, 1, 0, 0, 0, 1, 0, 0, 1, 1, 1]

/-- The full wire bit sequence `frameC1.unparse()` produces: flag,
stuffed body, flag. -/
def wireC1 : List Bool := flagBits ++ stuffedC1 ++ flagBits

/-- First 8 header bytes of `frameC1`. -/
def chunkA : List Nat := [130, 160, 164, 166, 64, 64, 96, 156]

/-- Header bytes 8–16 of `frameC1`. -/
def chunkB : List Nat := [96, 134, 130, 152, 152, 96, 174, 146]

/-- Header bytes 16–24 of `frameC1`. -/
def chunkC : List Nat := [136, 138, 98, 64, 98, 174, 146, 136]

/-- Header bytes 24–30 of `frameC1` followed by the info byte `b"!"`. -/
def chunkD : List Nat := [138, 100, 64, 99, 3, 240, 33]

/-!
## Generic helper lemmas
-/

/-- Shifting a byte left by one doubles it. -/
theorem shiftLeft_one (c : Nat) : c <<< 1 = 2 * c := by
  rw [Nat.shiftLeft_eq]
  omega

/-- Bytes below the ASCII lowercase range are fixed by `upper()`. -/
theorem upperByte_of_lt (c : Nat) (h : c < 97) : upperByte c = c := by
  simp only [upperByte]
  rw [if_neg]
  omega

/-- `upper()` fixes a byte string whose bytes are below the lowercase range. -/
theorem map_upperByte_id (l : List Nat) (h : ∀ c ∈ l, c < 97) :
    l.map upperByte = l := by
  induction l with
  | nil => rfl
  | cons c rest ih =>
    simp only [List.map_cons]
    rw [upperByte_of_lt c (h c (by simp)), ih (fun x hx => h x (by simp [hx]))]

/-- `find` locates the separator right after a separator-free prefix. -/
theorem pyfind_append (a b : List Nat) (h : 45 ∉ a) :
    pyfind 45 (a ++ 45 :: b) = (a.length : Int) := by
  induction a with
  | nil => simp [pyfind]
  | cons c rest ih =>
    have hc : c ≠ 45 := fun hc => h (by simp [hc])
    have hrest : 45 ∉ rest := fun hr => h (by simp [hr])
    simp only [List.cons_append, pyfind, if_neg hc, List.append_eq, ih hrest]
    rw [if_neg (by omega)]
    simp

/-- `split` of a separator-free byte string is the whole string. -/
theorem splitOn_no_sep (sep : Nat) (l : List Nat) (h : sep ∉ l) :
    splitOn sep l = [l] := by
  induction l with
  | nil => rfl
  | cons c rest ih =>
    have hc : c ≠ sep := fun hc => h (by simp [hc])
    have hrest : sep ∉ rest := fun hr => h (by simp [hr])
    simp only [splitOn, if_neg hc, ih hrest]

/-- `split` peels off a separator-free prefix before a separator. -/
theorem splitOn_append_sep (sep : Nat) (a b : List Nat) (h : sep ∉ a) :
    splitOn sep (a ++ sep :: b) = a :: splitOn sep b := by
  induction a with
  | nil => simp [splitOn]
  | cons c rest ih =>
    have hc : c ≠ sep := fun hc => h (by simp [hc])
    have hrest : sep ∉ rest := fun hr => h (by simp [hr])
    simp only [List.cons_append, splitOn, if_neg hc, List.append_eq, ih hrest]

/-- `shiftBytes` succeeds, returning the doubled bytes, when every shifted
byte fits in one byte. -/
theorem shiftBytes_ok (l : List Nat) (h : ∀ c ∈ l, c <<< 1 ≤ 255) :
    shiftBytes l = Except.ok (l.map (· <<< 1)) := by
  induction l with
  | nil => rfl
  | cons c rest ih =>
    simp only [shiftBytes, if_pos (h c (by simp)), List.map_cons,
      ih (fun x hx => h x (by simp [hx])), Except.map]

/-- Whenever `shiftBytes` succeeds its output is the doubled input. -/
theorem shiftBytes_ok_inv (p : List Nat) :
    ∀ l : List Nat, shiftBytes p = Except.ok l → l = p.map (· <<< 1) := by
  induction p with
  | nil =>
    intro l h
    simp only [shiftBytes] at h
    cases h
    rfl
  | cons c rest ih =>
    intro l h
    simp only [shiftBytes] at h
    by_cases hc : c <<< 1 ≤ 255
    · rw [if_pos hc] at h
      cases hrest : shiftBytes rest with
      | error e => rw [hrest] at h; cases h
      | ok es =>
        rw [hrest] at h
        cases h
        simp only [List.map_cons]
        rw [← ih es hrest]
    · rw [if_neg hc] at h
      cases h

/-- Decoding (right shift) inverts encoding (left shift) on every byte. -/
theorem map_shift_unshift (l : List Nat) :
    (l.map (· <<< 1)).map (· >>> 1) = l := by
  induction l with
  | nil => rfl
  | cons c rest ih =>
    simp only [List.map_cons, ih]
    rw [Nat.shiftRight_eq_div_pow, shiftLeft_one]
    norm_num

/-!
## C3 — bit unstuffing inverts bit stuffing
-/

/-- Stuffing then unstuffing from matching counter states is the identity. -/
theorem bit_unstuff_bit_stuffAux (data : List Bool) :
    ∀ count : Nat, count < 5 →
      bit_unstuffAux count false (bit_stuffAux count data) = data := by
  induction data with
  | nil => intro count _; rfl
  | cons bit rest ih =>
    intro count hc
    cases bit with
    | false =>
      simp only [bit_stuffAux, bit_unstuffAux]
      rw [ih 0 (by omega)]
    | true =>
      by_cases h5 : count + 1 = 5
      · simp only [bit_stuffAux, if_pos h5, bit_unstuffAux]
        rw [ih 0 (by omega)]
      · simp only [bit_stuffAux, if_neg h5, bit_unstuffAux]
        rw [ih (count + 1) (by omega)]

/-- C3: for every finite bit sequence `B`,
`bit_unstuff (bit_stuff B) = B` — bit stuffing followed by bit
unstuffing is the identity. -/
theorem bit_unstuff_bit_stuff (B : List Bool) : bit_unstuff (bit_stuff B) = B :=
  bit_unstuff_bit_stuffAux B 0 (by omega)

/-!
## C4 — stuffed output has no run of six ones
-/

/-- The stuffing loop, started below the threshold, emits a sequence in
which no run of ones reaches six and no terminal run reaches five. -/
theorem stuffed_ok_bit_stuffAux (data : List Bool) :
    ∀ count : Nat, count < 5 →
      stuffed_ok count (bit_stuffAux count data) = true := by
  induction data with
  | nil => intro count hc; simp [bit_stuffAux, stuffed_ok, hc]
  | cons bit rest ih =>
    intro count hc
    cases bit with
    | false =>
      simp only [bit_stuffAux, stuffed_ok]
      exact ih 0 (by omega)
    | true =>
      by_cases h5 : count + 1 = 5
      · simp only [bit_stuffAux, if_pos h5, stuffed_ok]
        rw [ih 0 (by omega)]
        simp
        omega
      · simp only [bit_stuffAux, if_neg h5, stuffed_ok]
        rw [ih (count + 1) (by omega)]
        simp
        omega

/-- C4: for every input bit sequence, `bit_stuff`'s output contains no run
of six or more consecutive one-bits: after every run of exactly five
one-bits a `0` is emitted and the run counter resets, including when a
run of five one-bits ends the input (`stuffed_ok` also rejects a
terminal run of five unfollowed by a `0`). -/
theorem bit_stuff_no_long_runs (B : List Bool) : stuffed_ok 0 (bit_stuff B) = true :=
  stuffed_ok_bit_stuffAux B 0 (by omega)

/-!
## C5 — the FCS engine implements the specified step and digest
-/

/-- C5: the FCS engine starts from `0xFFFF`; each `update_bit` computes
`check = (state & 1) != 0`, shifts the state right by one, and XORs in
`0x8408` exactly when `check` differs from the input bit; `digest` is the
one's complement of the state modulo `2^16` as two bytes,
least-significant byte first. -/
theorem fcs_engine_matches_spec :
    FCS.init = 0xffff ∧
    (∀ s b, FCS.update_bit s b = spec_update_bit s b) ∧
    (∀ s, FCS.digest s = spec_digest s) := by
  refine ⟨rfl, ?_, ?_⟩
  · intro s b
    simp only [FCS.update_bit, spec_update_bit, Nat.and_one_is_mod]
    rcases Nat.mod_two_eq_zero_or_one s with h2 | h2 <;> rw [h2] <;> cases b <;> simp
  · intro s
    simp only [FCS.digest, spec_digest]
    have h1 : ∀ v : Nat, v &&& 0xff = v % 2 ^ 8 := by
      intro v
      have := Nat.and_pow_two_sub_one_eq_mod v 8
      norm_num at this ⊢
      exact this
    have h2 : ∀ v : Nat, v >>> 8 = v / 2 ^ 8 := fun v => Nat.shiftRight_eq_div_pow v 8
    rw [h1, h2, h1]

/-!
## C2 — `fcs_validate` faults on the output of `fcs`

For the one-byte payload `b"!"`, the appended stream has 24 bits; as soon
as the buffer exceeds 16 bits, `fcs_validate` pops a single bit and hands
it to the byte-oriented `FCS.update`, which raises `TypeError` — the
round trip never yields the data bits back.
-/

/-- C2: running the FCS-appended bits of the byte string `b"!"` through
`fcs_validate` raises `TypeError` (from feeding a single bit to the
byte-oriented `FCS.update`) instead of yielding the data bits with the
checksum verified. -/
theorem fcs_validate_raises_type_error :
    fcs_validate (fcs (bytesToBits [33])) = Except.error "TypeError" := by rfl

/-!
## C1 — serializing then parsing the concrete UI frame

The round trip is staged through computed literals: the header bytes, the
FCS digest (folded in four chunks), the stuffed body, and the wire bits.
`parse` then fails to find the `0x03 0xF0` marker (its comparison is
`bytes == str`, always `False` in Python 3), reaches the misspelled
`digipeters` branch, raises `NameError`, and the bare `except` leaves the
all-`"no decode"` sentinel.
-/

/-- The header of the concrete frame evaluates to `hdrC1`. -/
theorem headerC1 : frameC1.header = Except.ok hdrC1 := by rfl

/-- Folding the FCS over a concatenation is folding over the pieces. -/
theorem fcsFoldBytes_append (s : Nat) (a b : List Nat) :
    fcsFoldBytes s (a ++ b) = fcsFoldBytes (fcsFoldBytes s a) b := by
  simp [fcsFoldBytes, bytesToBits, List.map_append, List.flatten_append,
    List.foldl_append]

/-- FCS state after the first 8 body bytes of `frameC1`. -/
theorem foldA : fcsFoldBytes FCS.init chunkA = 13276 := by rfl

/-- FCS state after 16 body bytes of `frameC1`. -/
theorem foldB : fcsFoldBytes 13276 chunkB = 22547 := by rfl

/-- FCS state after 24 body bytes of `frameC1`. -/
theorem foldC : fcsFoldBytes 22547 chunkC = 10153 := by rfl

/-- FCS state after all 31 body bytes of `frameC1`. -/
theorem foldD : fcsFoldBytes 10153 chunkD = 7085 := by rfl

/-- FCS state over the whole body `header ++ info` of `frameC1`. -/
theorem foldBody : fcsFoldBytes FCS.init (hdrC1 ++ [33]) = 7085 := by
  have h : hdrC1 ++ [33] = chunkA ++ (chunkB ++ (chunkC ++ chunkD)) := by rfl
  rw [h, fcsFoldBytes_append, foldA, fcsFoldBytes_append, foldB,
    fcsFoldBytes_append, foldC, foldD]

/-- The FCS digest of the concrete frame is `b"\x52\xe4"`. -/
theorem fcsC1 : frameC1.fcs = Except.ok [82, 228] := by
  simp only [AX25.fcs, headerC1]
  show Except.ok (FCS.digest (fcsFoldBytes FCS.init (hdrC1 ++ frameC1.info)))
    = Except.ok [82, 228]
  have hinfo : frameC1.info = [33] := rfl
  rw [hinfo, foldBody]
  rfl

/-- Bit-stuffing the body bits of the concrete frame gives `stuffedC1`. -/
theorem stuffC1 : bit_stuff (bytesToBits (hdrC1 ++ [33] ++ [82, 228])) = stuffedC1 := by
  rfl

/-- `unparse` of the concrete frame produces the wire bits `wireC1`. -/
theorem unparse_frameC1 : frameC1.unparse = Except.ok wireC1 := by
  simp only [AX25.unparse, headerC1, fcsC1]
  show Except.ok (flagBits
      ++ bit_stuff (bytesToBits (hdrC1 ++ frameC1.info ++ [82, 228])) ++ flagBits)
    = Except.ok wireC1
  have hinfo : frameC1.info = [33] := rfl
  rw [hinfo, stuffC1]
  rfl

/-- Parsing the wire bits of the concrete frame ends in the sentinel. -/
theorem parse_wireC1 : AX25.parse wireC1 = noDecodeResult := by rfl

/-- C1: constructing the UI frame with destination `b"APRS"`, source
`b"N0CALL"`, digipeaters `(b"WIDE1-1", b"WIDE2-1")` and info `b"!"`,
serializing it with `unparse` and parsing the wire bits with `parse` does
NOT recover the fields: every field is left at the `"no decode"`
sentinel, exhibiting the decode defect at this concrete input. -/
theorem ui_roundtrip_parse_no_decode :
    (frameC1.unparse).map AX25.parse = Except.ok noDecodeResult := by
  rw [unparse_frameC1]
  show Except.ok (AX25.parse wireC1) = Except.ok noDecodeResult
  rw [parse_wireC1]

/-!
## C6 — the callsign codec round-trips valid callsigns
-/

/-- C6: for every callsign `C` (1–6 uppercase letters/digits, the valid
callsign syntax of the spec) and every single-character SSID digit `S`,
decoding the 7-byte result of `callsign_encode (C ++ "-" ++ S)` with
`callsign_decode` recovers `C` space-padded to exactly six characters
followed by `S`. -/
theorem callsign_encode_decode (C : List Nat) (S : Nat)
    (hne : C ≠ []) (hlen : C.length ≤ 6)
    (hC : ∀ c ∈ C, (65 ≤ c ∧ c ≤ 90) ∨ (48 ≤ c ∧ c ≤ 57))
    (hS : 48 ≤ S ∧ S ≤ 57) :
    (callsign_encode (C ++ 45 :: [S])).map callsign_decode
      = Except.ok (C ++ List.replicate (6 - C.length) 32 ++ [S]) := by
  have hlt : ∀ c ∈ C, c < 97 := by
    intro c hc
    rcases hC c hc with h | h <;> omega
  have hdc : 45 ∉ C := by
    intro hd
    rcases hC 45 hd with h | h <;> omega
  have hmap : (C ++ 45 :: [S]).map upperByte = C ++ 45 :: [S] := by
    apply map_upperByte_id
    intro c hc
    rcases List.mem_append.1 hc with h | h
    · exact hlt c h
    · simp at h
      rcases h with h | h <;> omega
  have hfind : (0 : Int) < pyfind 45 (C ++ 45 :: [S]) := by
    rw [pyfind_append C [S] hdc]
    have := List.length_pos.2 hne
    exact_mod_cast this
  have hsplit : callsign_split (C ++ 45 :: [S]) = Except.ok (C, [S]) := by
    simp only [callsign_split, hmap, if_pos hfind]
    rw [splitOn_append_sep 45 C [S] hdc, splitOn_no_sep 45 [S] (by simp; omega)]
  have hbound : ∀ c ∈ C ++ List.replicate (6 - C.length) 32 ++ [S], c <<< 1 ≤ 255 := by
    intro c hc
    rw [shiftLeft_one]
    rcases List.mem_append.1 hc with h | h
    · rcases List.mem_append.1 h with h2 | h2
      · rcases hC c h2 with h3 | h3 <;> omega
      · have := List.eq_of_mem_replicate h2
        omega
    · simp at h
      omega
  have hencode : callsign_encode (C ++ 45 :: [S])
      = Except.ok ((C ++ List.replicate (6 - C.length) 32 ++ [S]).map (· <<< 1)) := by
    simp only [callsign_encode, hsplit]
    show (if ([S] : List Nat).length = 1 then
        if C.length ≤ 6 then shiftBytes (C ++ List.replicate (6 - C.length) 32 ++ [S])
        else Except.error "AssertionError"
      else Except.error "AssertionError")
      = Except.ok ((C ++ List.replicate (6 - C.length) 32 ++ [S]).map (· <<< 1))
    rw [if_pos (show ([S] : List Nat).length = 1 by simp), if_pos hlen,
      shiftBytes_ok _ hbound]
  rw [hencode]
  simp only [Except.map, callsign_decode, map_shift_unshift]

/-- Witness for C6 at `C = b"N0CALL"`, `S = "1"`. -/
theorem callsign_roundtrip_witness :
    (callsign_encode (n0callB ++ 45 :: [49])).map callsign_decode
      = Except.ok (n0callB ++ List.replicate (6 - n0callB.length) 32 ++ [49]) :=
  callsign_encode_decode n0callB 49 (by decide) (by decide) (by decide) (by decide)

/-!
## C7 — encoded addresses: length and end-of-address marker
-/

/-- A successful `callsign_encode` yields exactly 7 bytes, all even. -/
theorem callsign_encode_ok_shape (x : List Nat) (l : List Nat)
    (h : callsign_encode x = Except.ok l) :
    l.length = 7 ∧ ∀ b ∈ l, b % 2 = 0 := by
  cases hsplit : callsign_split x with
  | error e => simp [callsign_encode, hsplit] at h
  | ok p =>
    obtain ⟨cs, ssid⟩ := p
    simp only [callsign_encode, hsplit] at h
    by_cases h1 : ssid.length = 1
    · rw [if_pos h1] at h
      by_cases h2 : cs.length ≤ 6
      · rw [if_pos h2] at h
        have hmap := shiftBytes_ok_inv _ _ h
        subst hmap
        constructor
        · simp only [List.length_map, List.length_append,
            List.length_replicate, h1]
          omega
        · intro b hb
          simp only [List.mem_map] at hb
          obtain ⟨c, _, hc⟩ := hb
          rw [← hc, shiftLeft_one]
          omega
      · rw [if_neg h2] at h; cases h
    · rw [if_neg h1] at h; cases h

/-- When every digipeater encodes, `encodeList` succeeds with one 7-byte
all-even block per digipeater. -/
theorem encodeList_ok (digis : List (List Nat))
    (h : ∀ g ∈ digis, ∃ l, callsign_encode g = Except.ok l) :
    ∃ es, encodeList digis = Except.ok es ∧ es.length = digis.length ∧
      ∀ e ∈ es, e.length = 7 ∧ ∀ b ∈ e, b % 2 = 0 := by
  induction digis with
  | nil => exact ⟨[], rfl, rfl, by simp⟩
  | cons g rest ih =>
    obtain ⟨el, hl⟩ := h g (by simp)
    obtain ⟨es, hes, heslen, hessh⟩ := ih (fun x hx => h x (by simp [hx]))
    refine ⟨el :: es, ?_, by simp [heslen], ?_⟩
    · simp only [encodeList, hl, hes]
    · intro e he
      rcases List.mem_cons.1 he with he | he
      · rw [he]
        exact callsign_encode_ok_shape g el hl
      · exact hessh e he

/-- Flattening blocks of 7 bytes gives 7 bytes per block. -/
theorem flatten_length_of_seven (es : List (List Nat))
    (h : ∀ e ∈ es, e.length = 7) : es.flatten.length = 7 * es.length := by
  induction es with
  | nil => rfl
  | cons e rest ih =>
    simp only [List.flatten_cons, List.length_append, List.length_cons,
      h e (by simp), ih (fun x hx => h x (by simp [hx]))]
    omega

/-- `orLast` only ORs `1` into the final byte. -/
theorem orLast_append (l : List Nat) (x : Nat) :
    orLast (l ++ [x]) = l ++ [x ||| 1] := by
  induction l with
  | nil => rfl
  | cons c rest ih =>
    cases hr : rest ++ [x] with
    | nil => exact absurd hr (by simp)
    | cons y ys =>
      simp only [List.cons_append, hr, orLast]
      rw [← hr, ih]

/-- C7: for every frame whose destination, source and digipeater
callsigns all encode, `encoded_addresses` returns `7 * (2 + number of
digipeaters)` bytes whose last byte has its low-order bit set to `1`
while every preceding byte has low-order bit `0`. -/
theorem encoded_addresses_invariant (dest src : List Nat) (digis : List (List Nat))
    (hd : ∃ l, callsign_encode dest = Except.ok l)
    (hs : ∃ l, callsign_encode src = Except.ok l)
    (hg : ∀ g ∈ digis, ∃ l, callsign_encode g = Except.ok l) :
    ∃ pre last, encoded_addresses dest src digis = Except.ok (pre ++ [last]) ∧
      (pre ++ [last]).length = 7 * (2 + digis.length) ∧
      (∀ b ∈ pre, b % 2 = 0) ∧ last % 2 = 1 := by
  obtain ⟨d, hdok⟩ := hd
  obtain ⟨s, hsok⟩ := hs
  obtain ⟨es, hesok, heslen, hessh⟩ := encodeList_ok digis hg
  obtain ⟨hdlen, hdev⟩ := callsign_encode_ok_shape dest d hdok
  obtain ⟨hslen, hsev⟩ := callsign_encode_ok_shape src s hsok
  have hne : d ++ s ++ es.flatten ≠ [] := by
    intro hemp
    have := congrArg List.length hemp
    simp [List.length_append, hdlen] at this
  have hsplit0 : d ++ s ++ es.flatten
      = (d ++ s ++ es.flatten).dropLast ++ [(d ++ s ++ es.flatten).getLast hne] :=
    (List.dropLast_append_getLast hne).symm
  have hall : ∀ b ∈ d ++ s ++ es.flatten, b % 2 = 0 := by
    intro b hb
    rcases List.mem_append.1 hb with hb | hb
    · rcases List.mem_append.1 hb with hb | hb
      · exact hdev b hb
      · exact hsev b hb
    · obtain ⟨e, he, hbe⟩ := List.mem_flatten.1 hb
      exact (hessh e he).2 b hbe
  have hlen0 : (d ++ s ++ es.flatten).length = 7 * (2 + digis.length) := by
    simp only [List.length_append, hdlen, hslen,
      flatten_length_of_seven es (fun e he => (hessh e he).1), heslen]
    ring
  refine ⟨(d ++ s ++ es.flatten).dropLast,
    ((d ++ s ++ es.flatten).getLast hne) ||| 1, ?_, ?_, ?_, ?_⟩
  · simp only [encoded_addresses, hdok, hsok, hesok]
    rw [show orLast (d ++ s ++ es.flatten)
        = orLast ((d ++ s ++ es.flatten).dropLast
            ++ [(d ++ s ++ es.flatten).getLast hne]) from by rw [← hsplit0]]
    rw [orLast_append]
  · have h1 := congrArg List.length hsplit0
    simp only [List.length_append, List.length_cons, List.length_nil] at h1 hlen0 ⊢
    omega
  · intro b hb
    apply hall
    rw [hsplit0]
    exact List.mem_append_left _ hb
  · exact Nat.or_mod_two_eq_one.2 (Or.inr rfl)

/-- Witness for C7 at destination `b"APRS"`, source `b"N0CALL"`, one
digipeater `b"WIDE1-1"`. -/
theorem encoded_addresses_witness :
    ∃ pre last, encoded_addresses aprsB n0callB [wide1B] = Except.ok (pre ++ [last]) ∧
      (pre ++ [last]).length = 7 * (2 + ([wide1B] : List (List Nat)).length) ∧
      (∀ b ∈ pre, b % 2 = 0) ∧ last % 2 = 1 :=
  encoded_addresses_invariant aprsB n0callB [wide1B] ⟨_, rfl⟩ ⟨_, rfl⟩ (by
    intro g hg
    rw [List.mem_singleton] at hg
    rw [hg]
    exact ⟨_, rfl⟩)

/-!
## C8 — `parse` never raises: failures become the sentinel state
-/

/-- C8: `parse` is a total function; whenever its decode pipeline fails
with any exception — in particular whenever the input contains fewer than
two occurrences of the flag pattern `0x7E` — the bare `except` sets
destination, source, info and digis all to the `"no decode"` sentinel,
never leaving partially-populated fields. -/
theorem parse_failure_sentinel (bits : List Bool) :
    (∀ e, parseBody bits = Except.error e → AX25.parse bits = noDecodeResult) ∧
    (flagCount bits < 2 → AX25.parse bits = noDecodeResult) := by
  constructor
  · intro e he
    simp [AX25.parse, he]
  · intro h2
    have herr : parseBody bits = Except.error "IndexError" := by
      unfold parseBody
      cases hl : searchAll flagBits bits with
      | nil => simp [hl]
      | cons a t =>
        cases t with
        | nil => simp [hl]
        | cons b t2 =>
          exfalso
          simp [flagCount, hl] at h2
          omega
    simp [AX25.parse, herr]

/-- Witness for C8 at the empty bit sequence (zero flag occurrences). -/
theorem parse_sentinel_witness : AX25.parse [] = noDecodeResult :=
  (parse_failure_sentinel []).2 (by decide)

/-!
## C9 — structural errors in `callsign_encode` are fatal assertions
-/

/-- C9: whenever the split phase of `callsign_encode` succeeds but leaves
an SSID that is not exactly one character or a callsign longer than six
characters, the encode call fails with `AssertionError` and produces no
encoded address bytes. -/
theorem callsign_encode_assert_error (input cs ssid : List Nat)
    (h : callsign_split input = Except.ok (cs, ssid))
    (hbad : ssid.length ≠ 1 ∨ 6 < cs.length) :
    callsign_encode input = Except.error "AssertionError" := by
  simp only [callsign_encode, h]
  rcases hbad with h1 | h2
  · rw [if_neg h1]
  · by_cases h1 : ssid.length = 1
    · rw [if_pos h1, if_neg (by omega)]
    · rw [if_neg h1]

/-- Witness for C9 at `b"AB-"`, whose SSID part is empty. -/
theorem callsign_assert_witness :
    callsign_encode [65, 66, 45] = Except.error "AssertionError" :=
  callsign_encode_assert_error [65, 66, 45] [65, 66] [] (by rfl)
    (Or.inl (by decide))

/-!
## C10 — a leading hyphen is never split off
-/

/-- C10: for every input whose first byte is `"-"`, `find(b"-") > 0`
fails, so no split occurs: the default SSID `"0"` is used and the whole
input (hyphen included) is the base callsign, subject to the
six-character assertion. -/
theorem callsign_encode_leading_dash (rest : List Nat) :
    callsign_split (45 :: rest) = Except.ok ((45 :: rest).map upperByte, [48]) ∧
    ((45 :: rest).length ≤ 6 →
      callsign_encode (45 :: rest)
        = shiftBytes ((45 :: rest).map upperByte
            ++ List.replicate (6 - (45 :: rest).length) 32 ++ [48])) ∧
    (6 < (45 :: rest).length →
      callsign_encode (45 :: rest) = Except.error "AssertionError") := by
  have hmaplen : ((45 :: rest).map upperByte).length = (45 :: rest).length :=
    List.length_map _ _
  have hsplit : callsign_split (45 :: rest)
      = Except.ok ((45 :: rest).map upperByte, [48]) := by
    simp only [callsign_split]
    rw [if_neg]
    rw [show (45 :: rest).map upperByte = 45 :: rest.map upperByte from by
      simp [upperByte]]
    simp [pyfind]
  refine ⟨hsplit, ?_, ?_⟩
  · intro hle
    simp only [callsign_encode, hsplit]
    rw [if_pos (by simp), if_pos (by rw [hmaplen]; exact hle), hmaplen]
  · intro hgt
    simp only [callsign_encode, hsplit]
    rw [if_pos (by simp), if_neg (by rw [hmaplen]; omega)]

/-- Witness for C10 at the input `b"-A"`. -/
theorem callsign_leading_dash_witness :
    callsign_split [45, 65] = Except.ok (([45, 65] : List Nat).map upperByte, [48]) ∧
    callsign_encode [45, 65]
      = shiftBytes (([45, 65] : List Nat).map upperByte
          ++ List.replicate (6 - ([45, 65] : List Nat).length) 32 ++ [48]) :=
  ⟨(callsign_encode_leading_dash [65]).1,
   (callsign_encode_leading_dash [65]).2.1 (by decide)⟩
